import Mathlib

/-!
Shallow embedding of the deadline-resolution core of
src/AI_PROGRAM_MANAGER_ENV/utils.py.

Python strings are modelled as lists of Unicode code points (Nat).
Dates are modelled by their proleptic Gregorian ordinal (a Nat), as in
Python datetime.date.toordinal, where 0001-01-01 has ordinal 1; the
weekday of an ordinal follows Python date.weekday with Monday = 0.
The ASCII fragment of str.lower, str.strip and of the two regular
expressions in the source is modelled; every phrase in the source
vocabulary is ASCII.
-/

namespace Utils

/-- PyStr models a Python string as the list of its code points. -/
abbrev PyStr := List Nat

/-- Code points of a Lean string literal, used to denote concrete Python strings. -/
def str (s : String) : PyStr := s.data.map Char.toNat

/-- Membership of a code point in the ASCII whitespace class of Python,
matching both the regex class backslash-s and str.strip on ASCII text:
space, tab, newline, carriage return, vertical tab, form feed. -/
def isSpace (c : Nat) : Bool :=
  c = 32 || c = 9 || c = 10 || c = 13 || c = 11 || c = 12

/-- The ASCII decimal digit class of the regex class backslash-d. -/
def isDigit (c : Nat) : Bool := 48 ≤ c && c ≤ 57

/-- Python str.lower on a single ASCII code point: uppercase letters 65..90
map to 97..122, everything else is unchanged. -/
def pyLowerChar (c : Nat) : Nat := if 65 ≤ c && c ≤ 90 then c + 32 else c

/-- Python str.lower, applied pointwise. -/
def pyLower (s : PyStr) : PyStr := s.map pyLowerChar

/-- Python str.strip: remove leading and trailing whitespace. -/
def pyStrip (s : PyStr) : PyStr :=
  ((s.dropWhile isSpace).reverse.dropWhile isSpace).reverse

/-- The canonical form computed at line 19 of utils.py:
text = deadline_text.lower().strip(). -/
def canon (s : PyStr) : PyStr := pyStrip (pyLower s)

/-- The WEEKDAYS table of utils.py lines 5-13: weekday name to ordinal,
Monday = 0 through Sunday = 6. -/
def WEEKDAYS : List (PyStr × Nat) :=
  [(str "monday", 0), (str "tuesday", 1), (str "wednesday", 2),
   (str "thursday", 3), (str "friday", 4), (str "saturday", 5),
   (str "sunday", 6)]

/-- Match a literal pattern at the front of a string; on success return
the remainder of the string. -/
def matchLit : PyStr → PyStr → Option PyStr
  | [], s => some s
  | _ :: _, [] => none
  | p :: ps, c :: cs => if c = p then matchLit ps cs else none

/-- Match a nonempty maximal run of characters satisfying p at the front
of a string (greedy semantics of a regex plus-quantifier over a character
class); on success return the run and the remainder. -/
def matchRun1 (p : Nat → Bool) : PyStr → Option (PyStr × PyStr)
  | [] => none
  | c :: cs => if p c then some (c :: cs.takeWhile p, cs.dropWhile p) else none

/-- Python int applied to a nonempty string of decimal digit characters. -/
def digitsToNat (ds : PyStr) : Nat :=
  ds.foldl (fun acc c => acc * 10 + (c - 48)) 0

/-- Match the regex in-backslash-s+-(backslash-d+)-backslash-s+-days of
utils.py line 31 at the front of a string, returning the captured number.
Because the whitespace class, the digit class, and the initial letters of
the literals are pairwise disjoint, the greedy backtracking semantics of
the regex coincides with this maximal-munch parse. -/
def matchInDaysAt (s : PyStr) : Option Nat :=
  (matchLit (str "in") s).bind fun s1 =>
    (matchRun1 isSpace s1).bind fun x1 =>
      (matchRun1 isDigit x1.2).bind fun x2 =>
        (matchRun1 isSpace x2.2).bind fun x3 =>
          (matchLit (str "days") x3.2).map fun _ => digitsToNat x2.1

/-- Python re.search for the in-N-days regex: try every position from the
left, returning the captured number of the leftmost match. -/
def searchInDays : PyStr → Option Nat
  | [] => none
  | c :: cs =>
    match matchInDaysAt (c :: cs) with
    | some n => some n
    | none => searchInDays cs

/-- The weekday-name alternation of the regex at utils.py line 40, in its
source order.  No weekday name is a prefix of another, so at any position
at most one alternative can match. -/
def weekdayNames : List PyStr :=
  [str "monday", str "tuesday", str "wednesday", str "thursday",
   str "friday", str "saturday", str "sunday"]

/-- Match one of the seven weekday names at the front of a string,
returning the name that matched. -/
def matchWeekdayNameAt (s : PyStr) : Option PyStr :=
  weekdayNames.findSome? (fun w => (matchLit w s).map (fun _ => w))

/-- Match a literal lead-in word followed by mandatory whitespace and then
a weekday name, as in the optional group (this-backslash-s+ or
next-backslash-s+) of the regex at utils.py line 40. -/
def matchLeadInThen (lead : PyStr) (s : PyStr) : Option PyStr :=
  (matchLit lead s).bind fun s1 =>
    (matchRun1 isSpace s1).bind fun x1 => matchWeekdayNameAt x1.2

/-- Match the whole weekday regex at one position: the engine first tries
the alternatives of the optional lead-in group, then the empty lead-in.
Returns group 2, the weekday name. -/
def matchWeekdayAt (s : PyStr) : Option PyStr :=
  match matchLeadInThen (str "this") s with
  | some w => some w
  | none =>
    match matchLeadInThen (str "next") s with
    | some w => some w
    | none => matchWeekdayNameAt s

/-- Python re.search for the weekday regex of utils.py line 40: leftmost
match, returning the captured weekday name (group 2). -/
def searchWeekday : PyStr → Option PyStr
  | [] => none
  | c :: cs =>
    match matchWeekdayAt (c :: cs) with
    | some w => some w
    | none => searchWeekday cs

/-- The Python substring test (pat in text) for a fixed pattern. -/
def containsSeq (pat : PyStr) : PyStr → Bool
  | [] => (matchLit pat []).isSome
  | c :: cs => (matchLit pat (c :: cs)).isSome || containsSeq pat cs

/-- Python date.weekday on an ordinal: 0001-01-01 (ordinal 1) is a Monday. -/
def weekday (o : Nat) : Nat := (o + 6) % 7

/-- Convert a proleptic Gregorian ordinal to (year, month, day), the
standard era-based civil-from-days computation shifted to Python
ordinals (ordinal 1 is 0001-01-01). -/
def civilFromOrdinal (o : Nat) : Nat × Nat × Nat :=
  let z := o + 305
  let era := z / 146097
  let doe := z % 146097
  let yoe := (doe - doe / 1460 + doe / 36524 - doe / 146096) / 365
  let y := yoe + era * 400
  let doy := doe - (365 * yoe + yoe / 4 - yoe / 100)
  let mp := (5 * doy + 2) / 153
  let d := doy - (153 * mp + 2) / 5 + 1
  let m := if mp < 10 then mp + 3 else mp - 9
  (if m ≤ 2 then y + 1 else y, m, d)

/-- Convert (year, month, day) to the Python ordinal, inverse of
civilFromOrdinal on valid dates. -/
def toOrdinal (y m d : Nat) : Nat :=
  let y1 := if m ≤ 2 then y - 1 else y
  let era := y1 / 400
  let yoe := y1 % 400
  let mp := if 2 < m then m - 3 else m + 9
  let doy := (153 * mp + 2) / 5 + d - 1
  let doe := yoe * 365 + yoe / 4 - yoe / 100 + doy
  era * 146097 + doe - 305

/-- Little-endian decimal digits of n as code points, with explicit fuel
to keep the recursion structural; fuel larger than the digit count
suffices. -/
def decimalRevFuel : Nat → Nat → PyStr
  | 0, _ => []
  | fuel + 1, n =>
    if n < 10 then [48 + n] else (48 + n % 10) :: decimalRevFuel fuel (n / 10)

/-- Decimal numeral of n as code points, most significant digit first:
the way Python str formats a nonnegative integer. -/
def decimalRepr (n : Nat) : PyStr := (decimalRevFuel (n + 1) n).reverse

/-- Zero-padded two-digit field of Python date.isoformat. -/
def pad2 (n : Nat) : PyStr := if n < 10 then 48 :: decimalRepr n else decimalRepr n

/-- Zero-padded four-digit year field of Python date.isoformat. -/
def pad4 (n : Nat) : PyStr :=
  if n < 10 then 48 :: 48 :: 48 :: decimalRepr n
  else if n < 100 then 48 :: 48 :: decimalRepr n
  else if n < 1000 then 48 :: decimalRepr n
  else decimalRepr n

/-- Python date.isoformat on an ordinal: YYYY-MM-DD (45 is the hyphen). -/
def isoformat (o : Nat) : PyStr :=
  match civilFromOrdinal o with
  | (y, m, d) => pad4 y ++ 45 :: (pad2 m ++ 45 :: pad2 d)

/-- Body of resolve_deadline_text after the canonicalisation of line 19,
operating on the canonical text (utils.py lines 21-56).  The variable
is_next computed at line 44 of the source is never used there and is
omitted.  The dictionary subscripts on WEEKDAYS are total because every
looked-up key is a table key. -/
def resolveText (text : PyStr) (base_date : Nat) : Option PyStr :=
  if text = str "today" then some (isoformat base_date)
  else if text = str "tomorrow" then some (isoformat (base_date + 1))
  else if text = str "day after tomorrow" then some (isoformat (base_date + 2))
  else
    match searchInDays text with
    | some days => some (isoformat (base_date + days))
    | none =>
      match
        (if text = str "end of week" ∨ text = str "week end" ∨ text = str "weekend"
         then List.lookup (str "friday") WEEKDAYS
         else Option.bind (searchWeekday text) (fun name => List.lookup name WEEKDAYS)) with
      | none => none
      | some target =>
        let current : Nat := weekday base_date
        let da0 : Int := (target : Int) - (current : Int)
        let da1 : Int := if da0 ≤ 0 then da0 + 7 else da0
        let da2 : Int := if containsSeq (str "next") text then da1 + 7 else da1
        some (isoformat (base_date + da2.toNat))

/-- resolve_deadline_text of utils.py lines 15-56.  The phrase is an
optional string (None or a str in Python); a None or empty phrase is
falsy and yields None at line 16. -/
def resolve_deadline_text (deadline_text : Option PyStr) (base_date : Nat) : Option PyStr :=
  match deadline_text with
  | none => none
  | some s => if s = [] then none else resolveText (canon s) base_date

/-- The positive weekday distance the source computes with Int arithmetic,
as a Nat: days from a reference weekday w to the next strictly future
occurrence of the target weekday. -/
def natDaysAhead (target w : Nat) : Nat :=
  if w < target then target - w else target + 7 - w

/-- A JSON-ish field value of an action-item record: the deadline fields
manipulated by the post-processor hold either null or a string. -/
inductive Value where
  | null : Value
  | vstr : PyStr → Value
deriving DecidableEq

/-- A Python dict as an ordered association list with (in Python,
necessarily) unique keys. -/
abbrev Dict := List (PyStr × Value)

/-- Python dict.pop(k, None): remove the entry with key k, if present. -/
def dictPop (k : PyStr) : Dict → Dict
  | [] => []
  | (k1, v) :: d => if k1 = k then d else (k1, v) :: dictPop k d

/-- Python dict subscript assignment: replace the value at an existing
key in place, or append a new entry at the end. -/
def dictSet (k : PyStr) (v : Value) : Dict → Dict
  | [] => [(k, v)]
  | (k1, v1) :: d => if k1 = k then (k, v) :: d else (k1, v1) :: dictSet k v d

/-- The argument Python passes to the resolver from item.get: a missing
field or a null value becomes None, a string value is passed through.
Upstream the JSON contract makes deadline_text a string or null. -/
def phraseOf : Option Value → Option PyStr
  | some (Value.vstr s) => some s
  | _ => none

/-- Store the resolver result back as a field value: None becomes null. -/
def valOf : Option PyStr → Value
  | none => Value.null
  | some s => Value.vstr s

/-- The per-record body of the loop of actions_items_parser
(utils.py lines 66-78): pop owner and email, resolve the deadline_text
field into deadline, pop deadline_text. -/
def process_item (base_date : Nat) (item : Dict) : Dict :=
  let item1 := dictPop (str "owner") item
  let item2 := dictPop (str "email") item1
  let dt := List.lookup (str "deadline_text") item2
  let resolved := resolve_deadline_text (phraseOf dt) base_date
  let item3 := dictSet (str "deadline") (valOf resolved) item2
  dictPop (str "deadline_text") item3

/-- actions_items_parser of utils.py lines 58-80, at the level of the
list result.get("action_items", []): the source mutates each record of
the ordered list in place; the embedding returns the updated list.
(The source name ends in a word this file cannot use as a suffix, hence
the trailing letter change.) -/
def actions_items_parseq (action_items : List Dict) (base_date : Nat) : List Dict :=
  action_items.map (process_item base_date)

/-! ### Generic evaluation lemmas about the resolver -/

theorem resolveText_nil (R : Nat) : resolveText [] R = none := rfl

theorem resolve_some_eq (s : PyStr) (R : Nat) (hs : s ≠ []) :
    resolve_deadline_text (some s) R = resolveText (canon s) R := by
  simp [resolve_deadline_text, hs]

theorem weekday_lt (R : Nat) : weekday R < 7 := Nat.mod_lt _ (by omega)

theorem resolveText_inDays (t : PyStr) (R n : Nat)
    (h1 : t ≠ str "today") (h2 : t ≠ str "tomorrow") (h3 : t ≠ str "day after tomorrow")
    (h4 : searchInDays t = some n) :
    resolveText t R = some (isoformat (R + n)) := by
  simp only [resolveText, if_neg h1, if_neg h2, if_neg h3, h4]

theorem resolveText_weekday (t : PyStr) (R target : Nat) (name : PyStr)
    (h1 : t ≠ str "today") (h2 : t ≠ str "tomorrow") (h3 : t ≠ str "day after tomorrow")
    (h4 : searchInDays t = none)
    (h5 : ¬(t = str "end of week" ∨ t = str "week end" ∨ t = str "weekend"))
    (h6 : searchWeekday t = some name)
    (h7 : List.lookup name WEEKDAYS = some target) :
    resolveText t R = some (isoformat (R + (natDaysAhead target (weekday R)
      + (if containsSeq (str "next") t then 7 else 0)))) := by
  have hw : weekday R < 7 := weekday_lt R
  simp only [resolveText, if_neg h1, if_neg h2, if_neg h3, h4, if_neg h5, h6,
    Option.some_bind, h7]
  have key : ∀ x y : Nat, x = y → some (isoformat (R + x)) = some (isoformat (R + y)) := by
    intro x y h
    rw [h]
  apply key
  unfold natDaysAhead
  split_ifs <;> omega

theorem resolveText_eow (t : PyStr) (R : Nat)
    (h1 : t ≠ str "today") (h2 : t ≠ str "tomorrow") (h3 : t ≠ str "day after tomorrow")
    (h4 : searchInDays t = none)
    (h5 : t = str "end of week" ∨ t = str "week end" ∨ t = str "weekend")
    (h6 : containsSeq (str "next") t = false) :
    resolveText t R = some (isoformat (R + natDaysAhead 4 (weekday R))) := by
  have hw : weekday R < 7 := weekday_lt R
  have hlk : List.lookup (str "friday") WEEKDAYS = some 4 := by decide
  simp only [resolveText, if_neg h1, if_neg h2, if_neg h3, h4, if_pos h5, hlk, h6]
  have key : ∀ x y : Nat, x = y → some (isoformat (R + x)) = some (isoformat (R + y)) := by
    intro x y h
    rw [h]
  apply key
  unfold natDaysAhead
  split_ifs <;> first | omega | simp_all

theorem natDaysAhead_bounds (target w : Nat) (hw : w < 7) :
    1 ≤ natDaysAhead target w ∧ (target ≤ 6 → natDaysAhead target w ≤ 7) := by
  unfold natDaysAhead
  split_ifs <;> omega

theorem weekday_add_natDaysAhead (R target : Nat) (ht : target ≤ 6) :
    weekday (R + natDaysAhead target (weekday R)) = target := by
  unfold weekday natDaysAhead
  split_ifs <;> omega

theorem natDaysAhead_of_weekday_eq (R t : Nat) (h : weekday R = t) :
    natDaysAhead t (weekday R) = 7 := by
  have hw : weekday R < 7 := weekday_lt R
  rw [h] at *
  unfold natDaysAhead
  split_ifs <;> omega

/-! ### Claim theorems -/

/-- C6: for every reference date R the phrases today, tomorrow and day
after tomorrow resolve to R, R plus one day and R plus two days, each as
an ISO-8601 date string. -/
theorem fixed_offset_phrases (R : Nat) :
    resolve_deadline_text (some (str "today")) R = some (isoformat R) ∧
    resolve_deadline_text (some (str "tomorrow")) R = some (isoformat (R + 1)) ∧
    resolve_deadline_text (some (str "day after tomorrow")) R = some (isoformat (R + 2)) :=
  ⟨rfl, rfl, rfl⟩

/-- C4: resolution is total, always returning a string or null; null,
empty, whitespace-only and unrecognized phrases all yield null. -/
theorem unresolved_total (R : Nat) :
    resolve_deadline_text none R = none ∧
    resolve_deadline_text (some (str "")) R = none ∧
    resolve_deadline_text (some (str "   ")) R = none ∧
    resolve_deadline_text (some (str "gibberish xyz")) R = none ∧
    (∀ p, resolve_deadline_text p R = none ∨ ∃ s, resolve_deadline_text p R = some s) := by
  refine ⟨rfl, rfl, rfl, rfl, fun p => ?_⟩
  cases h : resolve_deadline_text p R with
  | none => exact Or.inl rfl
  | some s => exact Or.inr ⟨s, rfl⟩

/-- C7: resolution is a pure function of the phrase and the reference
date: identical inputs always give identical results, there is no other
state (in the source the only ambient data is the immutable WEEKDAYS
constant, and the inputs are never written). -/
theorem resolution_deterministic (p q : Option PyStr) (R S : Nat)
    (hpq : p = q) (hRS : R = S) :
    resolve_deadline_text p R = resolve_deadline_text q S := by
  rw [hpq, hRS]

theorem resolution_deterministic_witness :
    resolve_deadline_text (some (str "friday")) (toOrdinal 2024 1 3)
      = resolve_deadline_text (some (str "friday")) (toOrdinal 2024 1 3) :=
  resolution_deterministic _ _ _ _ rfl rfl

/-- C3: each end-of-week synonym resolves to the next Friday strictly
after R: some offset d with 1 ≤ d ≤ 7 landing on a Friday, with d = 7
when R itself is a Friday, and the next doubling never applied. -/
theorem end_of_week_resolution (R : Nat) :
    ∃ d, 1 ≤ d ∧ d ≤ 7 ∧ weekday (R + d) = 4 ∧ (weekday R = 4 → d = 7) ∧
      resolve_deadline_text (some (str "end of week")) R = some (isoformat (R + d)) ∧
      resolve_deadline_text (some (str "week end")) R = some (isoformat (R + d)) ∧
      resolve_deadline_text (some (str "weekend")) R = some (isoformat (R + d)) := by
  have hw := weekday_lt R
  refine ⟨natDaysAhead 4 (weekday R), (natDaysAhead_bounds 4 _ hw).1,
    (natDaysAhead_bounds 4 _ hw).2 (by omega), weekday_add_natDaysAhead R 4 (by omega),
    fun h => natDaysAhead_of_weekday_eq R 4 h, ?_, ?_, ?_⟩
  · rw [resolve_some_eq _ _ (by decide), show canon (str "end of week") = str "end of week" from rfl]
    exact resolveText_eow _ _ (by decide) (by decide) (by decide) (by decide)
      (Or.inl rfl) (by decide)
  · rw [resolve_some_eq _ _ (by decide), show canon (str "week end") = str "week end" from rfl]
    exact resolveText_eow _ _ (by decide) (by decide) (by decide) (by decide)
      (Or.inr (Or.inl rfl)) (by decide)
  · rw [resolve_some_eq _ _ (by decide), show canon (str "weekend") = str "weekend" from rfl]
    exact resolveText_eow _ _ (by decide) (by decide) (by decide) (by decide)
      (Or.inr (Or.inr rfl)) (by decide)

theorem end_of_week_resolution_witness :
    ∃ d, 1 ≤ d ∧ d ≤ 7 ∧ weekday (toOrdinal 2024 1 3 + d) = 4 ∧
      (weekday (toOrdinal 2024 1 3) = 4 → d = 7) ∧
      resolve_deadline_text (some (str "end of week")) (toOrdinal 2024 1 3)
        = some (isoformat (toOrdinal 2024 1 3 + d)) ∧
      resolve_deadline_text (some (str "week end")) (toOrdinal 2024 1 3)
        = some (isoformat (toOrdinal 2024 1 3 + d)) ∧
      resolve_deadline_text (some (str "weekend")) (toOrdinal 2024 1 3)
        = some (isoformat (toOrdinal 2024 1 3 + d)) :=
  end_of_week_resolution (toOrdinal 2024 1 3)

/-- C2: resolving next friday always lands exactly seven days after
resolving friday; in general, on the named-weekday path the presence of
the substring next anywhere in the canonical text adds exactly seven
days on top of the base weekday offset. -/
theorem next_adds_seven :
    (∀ R, ∃ d, resolve_deadline_text (some (str "friday")) R = some (isoformat (R + d)) ∧
      resolve_deadline_text (some (str "next friday")) R = some (isoformat (R + d + 7))) ∧
    (∀ p R name target, p ≠ [] →
      canon p ≠ str "today" → canon p ≠ str "tomorrow" → canon p ≠ str "day after tomorrow" →
      searchInDays (canon p) = none →
      ¬(canon p = str "end of week" ∨ canon p = str "week end" ∨ canon p = str "weekend") →
      searchWeekday (canon p) = some name →
      List.lookup name WEEKDAYS = some target →
      containsSeq (str "next") (canon p) = true →
      resolve_deadline_text (some p) R
        = some (isoformat (R + (natDaysAhead target (weekday R) + 7)))) := by
  constructor
  · intro R
    refine ⟨natDaysAhead 4 (weekday R), ?_, ?_⟩
    · rw [resolve_some_eq _ _ (by decide),
        show canon (str "friday") = str "friday" from rfl,
        resolveText_weekday _ R 4 (str "friday") (by decide) (by decide) (by decide)
          (by decide) (by decide) (by decide) (by decide),
        show containsSeq (str "next") (str "friday") = false from by decide]
      simp
    · rw [resolve_some_eq _ _ (by decide),
        show canon (str "next friday") = str "next friday" from rfl,
        resolveText_weekday _ R 4 (str "friday") (by decide) (by decide) (by decide)
          (by decide) (by decide) (by decide) (by decide),
        show containsSeq (str "next") (str "next friday") = true from by decide]
      simp [Nat.add_assoc]
  · intro p R name target hp h1 h2 h3 h4 h5 h6 h7 h8
    rw [resolve_some_eq _ _ hp, resolveText_weekday _ R target name h1 h2 h3 h4 h5 h6 h7, h8]
    simp

theorem next_adds_seven_witness :
    resolve_deadline_text (some (str "next tuesday")) (toOrdinal 2024 1 3)
      = some (isoformat (toOrdinal 2024 1 3
          + (natDaysAhead 1 (weekday (toOrdinal 2024 1 3)) + 7))) :=
  next_adds_seven.2 (str "next tuesday") (toOrdinal 2024 1 3) (str "tuesday") 1
    (by decide) (by decide) (by decide) (by decide) (by decide) (by decide)
    (by decide) (by decide) (by decide)

/-- C1 counterexample: the phrase next monday matches none of the earlier
cases and contains a weekday name, yet at R = 2024-01-03 the code returns
2024-01-15 while the days-ahead formula of the claim, which has no next
doubling, predicts 2024-01-08. -/
theorem weekday_resolution_counterexample :
    resolve_deadline_text (some (str "next monday")) (toOrdinal 2024 1 3)
      = some (str "2024-01-15") ∧
    isoformat (toOrdinal 2024 1 3 + natDaysAhead 0 (weekday (toOrdinal 2024 1 3)))
      = str "2024-01-08" ∧
    str "2024-01-15" ≠ str "2024-01-08" :=
  ⟨by decide, by decide, by decide⟩

/-- C1 (amended): on the named-weekday path the result is R plus
days_ahead, where days_ahead is the target ordinal minus the weekday of R
rolled forward by 7 when nonpositive, plus 7 more exactly when the
canonical phrase contains the substring next; a phrase that is exactly
the weekday name of R resolves to R plus 7; concrete scenario at
R = 2024-01-03, a Wednesday. -/
theorem weekday_resolution_amended :
    (∀ p R name target, p ≠ [] →
      canon p ≠ str "today" → canon p ≠ str "tomorrow" → canon p ≠ str "day after tomorrow" →
      searchInDays (canon p) = none →
      ¬(canon p = str "end of week" ∨ canon p = str "week end" ∨ canon p = str "weekend") →
      searchWeekday (canon p) = some name →
      List.lookup name WEEKDAYS = some target →
      resolve_deadline_text (some p) R
        = some (isoformat (R + (natDaysAhead target (weekday R)
            + (if containsSeq (str "next") (canon p) then 7 else 0))))) ∧
    ((∀ R, weekday R = 0 →
        resolve_deadline_text (some (str "monday")) R = some (isoformat (R + 7))) ∧
     (∀ R, weekday R = 1 →
        resolve_deadline_text (some (str "tuesday")) R = some (isoformat (R + 7))) ∧
     (∀ R, weekday R = 2 →
        resolve_deadline_text (some (str "wednesday")) R = some (isoformat (R + 7))) ∧
     (∀ R, weekday R = 3 →
        resolve_deadline_text (some (str "thursday")) R = some (isoformat (R + 7))) ∧
     (∀ R, weekday R = 4 →
        resolve_deadline_text (some (str "friday")) R = some (isoformat (R + 7))) ∧
     (∀ R, weekday R = 5 →
        resolve_deadline_text (some (str "saturday")) R = some (isoformat (R + 7))) ∧
     (∀ R, weekday R = 6 →
        resolve_deadline_text (some (str "sunday")) R = some (isoformat (R + 7)))) ∧
    (resolve_deadline_text (some (str "friday")) (toOrdinal 2024 1 3)
        = some (str "2024-01-05") ∧
     resolve_deadline_text (some (str "monday")) (toOrdinal 2024 1 3)
        = some (str "2024-01-08") ∧
     resolve_deadline_text (some (str "wednesday")) (toOrdinal 2024 1 3)
        = some (str "2024-01-10")) := by
  refine ⟨?_, ⟨?_, ?_, ?_, ?_, ?_, ?_, ?_⟩, by decide, by decide, by decide⟩
  · intro p R name target hp h1 h2 h3 h4 h5 h6 h7
    rw [resolve_some_eq _ _ hp, resolveText_weekday _ R target name h1 h2 h3 h4 h5 h6 h7]
  all_goals intro R h
  · rw [resolve_some_eq _ _ (by decide),
      show canon (str "monday") = str "monday" from rfl,
      resolveText_weekday _ R 0 (str "monday") (by decide) (by decide) (by decide)
        (by decide) (by decide) (by decide) (by decide),
      show containsSeq (str "next") (str "monday") = false from by decide,
      natDaysAhead_of_weekday_eq R 0 h]
    simp
  · rw [resolve_some_eq _ _ (by decide),
      show canon (str "tuesday") = str "tuesday" from rfl,
      resolveText_weekday _ R 1 (str "tuesday") (by decide) (by decide) (by decide)
        (by decide) (by decide) (by decide) (by decide),
      show containsSeq (str "next") (str "tuesday") = false from by decide,
      natDaysAhead_of_weekday_eq R 1 h]
    simp
  · rw [resolve_some_eq _ _ (by decide),
      show canon (str "wednesday") = str "wednesday" from rfl,
      resolveText_weekday _ R 2 (str "wednesday") (by decide) (by decide) (by decide)
        (by decide) (by decide) (by decide) (by decide),
      show containsSeq (str "next") (str "wednesday") = false from by decide,
      natDaysAhead_of_weekday_eq R 2 h]
    simp
  · rw [resolve_some_eq _ _ (by decide),
      show canon (str "thursday") = str "thursday" from rfl,
      resolveText_weekday _ R 3 (str "thursday") (by decide) (by decide) (by decide)
        (by decide) (by decide) (by decide) (by decide),
      show containsSeq (str "next") (str "thursday") = false from by decide,
      natDaysAhead_of_weekday_eq R 3 h]
    simp
  · rw [resolve_some_eq _ _ (by decide),
      show canon (str "friday") = str "friday" from rfl,
      resolveText_weekday _ R 4 (str "friday") (by decide) (by decide) (by decide)
        (by decide) (by decide) (by decide) (by decide),
      show containsSeq (str "next") (str "friday") = false from by decide,
      natDaysAhead_of_weekday_eq R 4 h]
    simp
  · rw [resolve_some_eq _ _ (by decide),
      show canon (str "saturday") = str "saturday" from rfl,
      resolveText_weekday _ R 5 (str "saturday") (by decide) (by decide) (by decide)
        (by decide) (by decide) (by decide) (by decide),
      show containsSeq (str "next") (str "saturday") = false from by decide,
      natDaysAhead_of_weekday_eq R 5 h]
    simp
  · rw [resolve_some_eq _ _ (by decide),
      show canon (str "sunday") = str "sunday" from rfl,
      resolveText_weekday _ R 6 (str "sunday") (by decide) (by decide) (by decide)
        (by decide) (by decide) (by decide) (by decide),
      show containsSeq (str "next") (str "sunday") = false from by decide,
      natDaysAhead_of_weekday_eq R 6 h]
    simp

theorem weekday_resolution_amended_witness :
    resolve_deadline_text (some (str "saturday")) (toOrdinal 2024 1 3)
      = some (isoformat (toOrdinal 2024 1 3
          + (natDaysAhead 5 (weekday (toOrdinal 2024 1 3))
              + (if containsSeq (str "next") (canon (str "saturday")) then 7 else 0)))) :=
  weekday_resolution_amended.1 (str "saturday") (toOrdinal 2024 1 3) (str "saturday") 5
    (by decide) (by decide) (by decide) (by decide) (by decide) (by decide)
    (by decide) (by decide)

/-! ### Lowercasing and stripping lemmas, towards claim C8 -/

theorem pyLowerChar_idem (c : Nat) : pyLowerChar (pyLowerChar c) = pyLowerChar c := by
  unfold pyLowerChar
  split_ifs
  all_goals simp_all
  all_goals omega

theorem pyLower_idem (s : PyStr) : pyLower (pyLower s) = pyLower s := by
  unfold pyLower
  rw [List.map_map]
  exact List.map_congr_left (fun c _ => pyLowerChar_idem c)

theorem isSpace_pyLowerChar (c : Nat) : isSpace (pyLowerChar c) = isSpace c := by
  unfold pyLowerChar isSpace
  split_ifs with h
  · simp only [Bool.and_eq_true, decide_eq_true_eq] at h
    rw [Bool.eq_iff_iff]
    simp only [Bool.or_eq_true, decide_eq_true_eq]
    omega
  · rfl

theorem dropWhile_cons_false (p : Nat → Bool) (c : Nat) (cs : PyStr) (h : p c = false) :
    (c :: cs).dropWhile p = c :: cs := by
  simp [List.dropWhile, h]

theorem noLead_dropWhile (p : Nat → Bool) (l : PyStr) (c : Nat)
    (h : (l.dropWhile p).head? = some c) : p c = false := by
  induction l with
  | nil => simp [List.dropWhile] at h
  | cons a as ih =>
    simp only [List.dropWhile] at h
    cases hpa : p a with
    | true => rw [hpa] at h; exact ih h
    | false =>
      rw [hpa] at h
      simp only [List.head?_cons, Option.some.injEq] at h
      exact h ▸ hpa

theorem dropWhile_eq_drop (p : Nat → Bool) (l : PyStr) : ∃ k, l.dropWhile p = l.drop k := by
  induction l with
  | nil => exact ⟨0, rfl⟩
  | cons a as ih =>
    cases hpa : p a with
    | true =>
      obtain ⟨k, hk⟩ := ih
      exact ⟨k + 1, by simp [List.dropWhile, hpa, hk]⟩
    | false => exact ⟨0, by simp [List.dropWhile, hpa]⟩

theorem getLast?_drop_ne_nil (k : Nat) (l : PyStr) (h : l.drop k ≠ []) :
    (l.drop k).getLast? = l.getLast? := by
  induction k generalizing l with
  | zero => rfl
  | succ k ih =>
    cases l with
    | nil => simp at h
    | cons a as =>
      rw [List.drop_succ_cons] at h ⊢
      rw [ih as h]
      have has : as ≠ [] := by
        intro e
        rw [e] at h
        simp at h
      obtain ⟨b, bs, hb⟩ := List.exists_cons_of_ne_nil has
      rw [hb]
      exact List.getLast?_cons_cons.symm

theorem pyStrip_idem (s : PyStr) : pyStrip (pyStrip s) = pyStrip s := by
  show pyStrip (((s.dropWhile isSpace).reverse.dropWhile isSpace).reverse)
      = ((s.dropWhile isSpace).reverse.dropWhile isSpace).reverse
  set y := s.dropWhile isSpace with hy
  set u := y.reverse.dropWhile isSpace with hu
  cases hu0 : u with
  | nil => rfl
  | cons a as =>
    rw [← hu0]
    have hhead : isSpace a = false := by
      refine noLead_dropWhile isSpace y.reverse a ?_
      rw [← hu, hu0]
      rfl
    have hlast : ∃ c, u.getLast? = some c ∧ isSpace c = false := by
      obtain ⟨k, hk⟩ := dropWhile_eq_drop isSpace y.reverse
      have hud : u = y.reverse.drop k := by rw [hu, hk]
      have hne : y.reverse.drop k ≠ [] := by
        rw [← hud, hu0]
        simp
      have h1 : u.getLast? = y.head? := by
        rw [hud, getLast?_drop_ne_nil k y.reverse hne, List.getLast?_reverse]
      have hyne : y ≠ [] := by
        intro e
        rw [e] at hud
        simp at hud
        rw [hud] at hu0
        simp at hu0
      obtain ⟨c, cs, hc⟩ := List.exists_cons_of_ne_nil hyne
      have hch : y.head? = some c := by rw [hc]; rfl
      refine ⟨c, by rw [h1, hch], ?_⟩
      refine noLead_dropWhile isSpace s c ?_
      rw [← hy, hch]
    obtain ⟨c, hcl, hcs⟩ := hlast
    have h2 : u.reverse.dropWhile isSpace = u.reverse := by
      have hhr : u.reverse.head? = some c := by rw [List.head?_reverse, hcl]
      cases hur : u.reverse with
      | nil => rfl
      | cons b bs =>
        rw [hur] at hhr
        simp only [List.head?_cons, Option.some.injEq] at hhr
        exact dropWhile_cons_false _ _ _ (hhr ▸ hcs)
    have h3 : u.dropWhile isSpace = u := by
      rw [hu0]
      exact dropWhile_cons_false _ _ _ hhead
    show ((u.reverse.dropWhile isSpace).reverse.dropWhile isSpace).reverse = u.reverse
    rw [h2, List.reverse_reverse, h3]

theorem dropWhile_isSpace_map (l : PyStr) :
    (l.map pyLowerChar).dropWhile isSpace = (l.dropWhile isSpace).map pyLowerChar := by
  rw [List.dropWhile_map]
  have hfun : (isSpace ∘ pyLowerChar) = isSpace := funext isSpace_pyLowerChar
  rw [hfun]

theorem pyLower_pyStrip_comm (s : PyStr) : pyLower (pyStrip s) = pyStrip (pyLower s) := by
  unfold pyLower pyStrip
  rw [dropWhile_isSpace_map, ← List.map_reverse, dropWhile_isSpace_map, ← List.map_reverse]

theorem canon_idem (s : PyStr) : canon (canon s) = canon s := by
  unfold canon
  rw [pyLower_pyStrip_comm (pyLower s), pyLower_idem, pyStrip_idem]

/-- C8: matching is insensitive to case and to leading and trailing
whitespace: resolving any phrase equals resolving its lowercased and
trimmed form, and in particular FRIDAY resolves like friday for every R. -/
theorem lower_strip_insensitive :
    (∀ p R, resolve_deadline_text (some p) R
        = resolve_deadline_text (some (canon p)) R) ∧
    (∀ R, resolve_deadline_text (some (str "FRIDAY")) R
        = resolve_deadline_text (some (str "friday")) R) := by
  constructor
  · intro p R
    by_cases hp : p = []
    · subst hp
      rfl
    · rw [resolve_some_eq p R hp]
      by_cases hc : canon p = []
      · rw [hc, resolveText_nil]
        rfl
      · rw [resolve_some_eq (canon p) R hc, canon_idem]
  · intro R
    rfl

/-! ### Character class facts and decimal numeral lemmas, towards C5 and C10 -/

theorem pyLowerChar_digit (c : Nat) (h : isDigit c = true) : pyLowerChar c = c := by
  simp only [isDigit, Bool.and_eq_true, decide_eq_true_eq] at h
  unfold pyLowerChar
  split_ifs with h2
  · simp only [Bool.and_eq_true, decide_eq_true_eq] at h2
    omega
  · rfl

theorem isSpace_of_isDigit (c : Nat) (h : isDigit c = true) : isSpace c = false := by
  simp only [isDigit, Bool.and_eq_true, decide_eq_true_eq] at h
  refine Bool.eq_false_iff.mpr ?_
  intro hx
  simp only [isSpace, Bool.or_eq_true, decide_eq_true_eq] at hx
  omega

theorem isDigit_of_isSpace (c : Nat) (h : isSpace c = true) : isDigit c = false := by
  simp only [isSpace, Bool.or_eq_true, decide_eq_true_eq] at h
  refine Bool.eq_false_iff.mpr ?_
  intro hx
  simp only [isDigit, Bool.and_eq_true, decide_eq_true_eq] at hx
  omega

theorem decimalRevFuel_digits (fuel : Nat) :
    ∀ n c, c ∈ decimalRevFuel fuel n → isDigit c = true := by
  induction fuel with
  | zero =>
    intro n c hc
    simp [decimalRevFuel] at hc
  | succ f ih =>
    intro n c hc
    unfold decimalRevFuel at hc
    split_ifs at hc with h
    · rw [List.mem_singleton] at hc
      subst hc
      simp only [isDigit, Bool.and_eq_true, decide_eq_true_eq]
      omega
    · rcases List.mem_cons.mp hc with h1 | h1
      · subst h1
        simp only [isDigit, Bool.and_eq_true, decide_eq_true_eq]
        omega
      · exact ih _ _ h1

theorem decimalRevFuel_ne_nil (f n : Nat) : decimalRevFuel (f + 1) n ≠ [] := by
  unfold decimalRevFuel
  split_ifs <;> simp

theorem digitsToNat_decimalRevFuel (fuel : Nat) :
    ∀ n, n < fuel → digitsToNat (decimalRevFuel fuel n).reverse = n := by
  induction fuel with
  | zero => intro n h; omega
  | succ f ih =>
    intro n h
    unfold decimalRevFuel
    split_ifs with h10
    · simp only [List.reverse_singleton, digitsToNat, List.foldl_cons, List.foldl_nil]
      omega
    · rw [List.reverse_cons]
      unfold digitsToNat
      rw [List.foldl_append]
      have hrec : digitsToNat (decimalRevFuel f (n / 10)).reverse = n / 10 := ih _ (by omega)
      unfold digitsToNat at hrec
      simp only [List.foldl_cons, List.foldl_nil]
      rw [hrec]
      omega

theorem digitsToNat_decimalRepr (n : Nat) : digitsToNat (decimalRepr n) = n :=
  digitsToNat_decimalRevFuel (n + 1) n (by omega)

theorem decimalRepr_digits (n : Nat) : ∀ c ∈ decimalRepr n, isDigit c = true := by
  intro c hc
  rw [decimalRepr, List.mem_reverse] at hc
  exact decimalRevFuel_digits (n + 1) n c hc

theorem decimalRepr_ne_nil (n : Nat) : decimalRepr n ≠ [] := by
  rw [decimalRepr]
  simp only [ne_eq, List.reverse_eq_nil_iff]
  exact decimalRevFuel_ne_nil n n

/-! ### Completeness and soundness of the in-N-days parser -/

theorem matchLit_append (pat rest : PyStr) : matchLit pat (pat ++ rest) = some rest := by
  induction pat with
  | nil => rfl
  | cons p ps ih => simp [matchLit, ih]

theorem matchLit_sound (pat : PyStr) : ∀ s r, matchLit pat s = some r → s = pat ++ r := by
  induction pat with
  | nil =>
    intro s r h
    simp only [matchLit, Option.some.injEq] at h
    rw [h, List.nil_append]
  | cons p ps ih =>
    intro s r h
    cases s with
    | nil => simp [matchLit] at h
    | cons c cs =>
      simp only [matchLit] at h
      split_ifs at h with hc
      · rw [hc, ih cs r h, List.cons_append]

theorem takeWhile_dropWhile_append (p : Nat → Bool) (xs ys : PyStr)
    (hxs : ∀ c ∈ xs, p c = true) (hys : ∀ c, ys.head? = some c → p c = false) :
    (xs ++ ys).takeWhile p = xs ∧ (xs ++ ys).dropWhile p = ys := by
  induction xs with
  | nil =>
    simp only [List.nil_append]
    cases ys with
    | nil => exact ⟨rfl, rfl⟩
    | cons b bs =>
      have hb : p b = false := hys b rfl
      refine ⟨?_, dropWhile_cons_false p b bs hb⟩
      simp [List.takeWhile, hb]
  | cons a as ih =>
    have ha : p a = true := hxs a (List.mem_cons_self a as)
    have hrest := ih (fun c hc => hxs c (List.mem_cons_of_mem a hc))
    constructor
    · rw [List.cons_append, List.takeWhile_cons_of_pos ha, hrest.1]
    · rw [List.cons_append, List.dropWhile_cons_of_pos ha, hrest.2]

theorem matchRun1_append (p : Nat → Bool) (xs ys : PyStr) (hne : xs ≠ [])
    (hxs : ∀ c ∈ xs, p c = true) (hys : ∀ c, ys.head? = some c → p c = false) :
    matchRun1 p (xs ++ ys) = some (xs, ys) := by
  cases xs with
  | nil => exact absurd rfl hne
  | cons a as =>
    have ha : p a = true := hxs a (List.mem_cons_self a as)
    have h2 := takeWhile_dropWhile_append p as ys
      (fun c hc => hxs c (List.mem_cons_of_mem a hc)) hys
    rw [List.cons_append]
    simp only [matchRun1, ha, if_true]
    rw [h2.1, h2.2]

theorem matchRun1_sound (p : Nat → Bool) (s tk rest : PyStr)
    (h : matchRun1 p s = some (tk, rest)) :
    s = tk ++ rest ∧ tk ≠ [] ∧ (∀ c ∈ tk, p c = true) := by
  cases s with
  | nil => simp [matchRun1] at h
  | cons a as =>
    simp only [matchRun1] at h
    split_ifs at h with ha
    · simp only [Option.some.injEq, Prod.mk.injEq] at h
      obtain ⟨h1, h2⟩ := h
      subst h1
      subst h2
      refine ⟨?_, by simp, ?_⟩
      · rw [List.cons_append, List.takeWhile_append_dropWhile]
      · intro c hc
        rcases List.mem_cons.mp hc with rfl | hc2
        · exact ha
        · exact List.mem_takeWhile_imp hc2

theorem matchInDaysAt_complete (ws1 ds ws2 suf : PyStr)
    (hws1 : ws1 ≠ []) (hws1s : ∀ c ∈ ws1, isSpace c = true)
    (hds : ds ≠ []) (hdsd : ∀ c ∈ ds, isDigit c = true)
    (hws2 : ws2 ≠ []) (hws2s : ∀ c ∈ ws2, isSpace c = true) :
    matchInDaysAt (str "in" ++ (ws1 ++ (ds ++ (ws2 ++ (str "days" ++ suf)))))
      = some (digitsToNat ds) := by
  obtain ⟨d0, ds', rfl⟩ := List.exists_cons_of_ne_nil hds
  obtain ⟨w2, ws2', rfl⟩ := List.exists_cons_of_ne_nil hws2
  have h1 : matchRun1 isSpace (ws1 ++ ((d0 :: ds') ++ ((w2 :: ws2') ++ (str "days" ++ suf))))
      = some (ws1, (d0 :: ds') ++ ((w2 :: ws2') ++ (str "days" ++ suf))) := by
    refine matchRun1_append isSpace ws1 _ hws1 hws1s ?_
    intro c hc
    simp only [List.cons_append, List.head?_cons, Option.some.injEq] at hc
    rw [← hc]
    exact isSpace_of_isDigit d0 (hdsd d0 (List.mem_cons_self d0 ds'))
  have h2 : matchRun1 isDigit ((d0 :: ds') ++ ((w2 :: ws2') ++ (str "days" ++ suf)))
      = some (d0 :: ds', (w2 :: ws2') ++ (str "days" ++ suf)) := by
    refine matchRun1_append isDigit _ _ (by simp) hdsd ?_
    intro c hc
    simp only [List.cons_append, List.head?_cons, Option.some.injEq] at hc
    rw [← hc]
    exact isDigit_of_isSpace w2 (hws2s w2 (List.mem_cons_self w2 ws2'))
  have h3 : matchRun1 isSpace ((w2 :: ws2') ++ (str "days" ++ suf))
      = some (w2 :: ws2', str "days" ++ suf) := by
    refine matchRun1_append isSpace _ _ (by simp) hws2s ?_
    intro c hc
    have : (str "days" ++ suf).head? = some 100 := rfl
    rw [this, Option.some.injEq] at hc
    rw [← hc]
    rfl
  unfold matchInDaysAt
  rw [matchLit_append, Option.some_bind, h1, Option.some_bind, h2, Option.some_bind,
    h3, Option.some_bind, matchLit_append, Option.map_some']

theorem matchInDaysAt_sound (s : PyStr) (n : Nat) (h : matchInDaysAt s = some n) :
    ∃ ws1 ds ws2 suf, s = str "in" ++ (ws1 ++ (ds ++ (ws2 ++ (str "days" ++ suf)))) ∧
      ws1 ≠ [] ∧ (∀ c ∈ ws1, isSpace c = true) ∧
      ds ≠ [] ∧ (∀ c ∈ ds, isDigit c = true) ∧
      ws2 ≠ [] ∧ (∀ c ∈ ws2, isSpace c = true) ∧
      n = digitsToNat ds := by
  unfold matchInDaysAt at h
  cases e1 : matchLit (str "in") s with
  | none => rw [e1] at h; simp at h
  | some s1 =>
  rw [e1, Option.some_bind] at h
  cases e2 : matchRun1 isSpace s1 with
  | none => rw [e2] at h; simp at h
  | some x1 =>
  rw [e2, Option.some_bind] at h
  cases e3 : matchRun1 isDigit x1.2 with
  | none => rw [e3] at h; simp at h
  | some x2 =>
  rw [e3, Option.some_bind] at h
  cases e4 : matchRun1 isSpace x2.2 with
  | none => rw [e4] at h; simp at h
  | some x3 =>
  rw [e4, Option.some_bind] at h
  cases e5 : matchLit (str "days") x3.2 with
  | none => rw [e5] at h; simp at h
  | some s5 =>
  rw [e5, Option.map_some'] at h
  obtain ⟨hs1, hw1ne, hw1s⟩ := matchRun1_sound isSpace s1 x1.1 x1.2 (by rw [e2])
  obtain ⟨hs2, hdne, hdd⟩ := matchRun1_sound isDigit x1.2 x2.1 x2.2 (by rw [e3])
  obtain ⟨hs3, hw2ne, hw2s⟩ := matchRun1_sound isSpace x2.2 x3.1 x3.2 (by rw [e4])
  have hs0 : s = str "in" ++ s1 := matchLit_sound (str "in") s s1 e1
  have hs5 : x3.2 = str "days" ++ s5 := matchLit_sound (str "days") x3.2 s5 e5
  refine ⟨x1.1, x2.1, x3.1, s5, ?_, hw1ne, hw1s, hdne, hdd, hw2ne, hw2s, ?_⟩
  · rw [hs0, hs1, hs2, hs3, hs5]
  · injection h with h
    exact h.symm

theorem searchInDays_sound (s : PyStr) (n : Nat) (h : searchInDays s = some n) :
    ∃ i, i < s.length ∧ matchInDaysAt (s.drop i) = some n ∧
      ∀ j, j < i → matchInDaysAt (s.drop j) = none := by
  induction s with
  | nil => simp [searchInDays] at h
  | cons c cs ih =>
    unfold searchInDays at h
    cases h0 : matchInDaysAt (c :: cs) with
    | some m =>
      rw [h0] at h
      simp only [Option.some.injEq] at h
      subst h
      exact ⟨0, by simp, h0, fun j hj => absurd hj (by omega)⟩
    | none =>
      rw [h0] at h
      obtain ⟨i, hi, hm, hmin⟩ := ih h
      refine ⟨i + 1, by simp; omega, by simpa using hm, ?_⟩
      intro j hj
      cases j with
      | zero => exact h0
      | succ j' =>
        rw [List.drop_succ_cons]
        exact hmin j' (by omega)

theorem searchInDays_complete (s : PyStr) (i m : Nat)
    (h : matchInDaysAt (s.drop i) = some m) : searchInDays s ≠ none := by
  induction s generalizing i with
  | nil =>
    rw [List.drop_nil] at h
    rw [show matchInDaysAt [] = none from rfl] at h
    exact Option.noConfusion h
  | cons c cs ih =>
    unfold searchInDays
    cases h0 : matchInDaysAt (c :: cs) with
    | some k => simp
    | none =>
      cases i with
      | zero =>
        rw [List.drop_zero, h0] at h
        exact Option.noConfusion h
      | succ i' =>
        rw [List.drop_succ_cons] at h
        exact ih i' h

/-! ### Canonical-form transparency for plain lowercase phrases -/

theorem canon_fixed (s : PyStr) (hl : ∀ c ∈ s, pyLowerChar c = c)
    (hh : ∀ c, s.head? = some c → isSpace c = false)
    (ht : ∀ c, s.getLast? = some c → isSpace c = false) :
    canon s = s := by
  unfold canon pyLower pyStrip
  have h1 : s.map pyLowerChar = s := (List.map_congr_left hl).trans (List.map_id s)
  rw [h1]
  have h2 : s.dropWhile isSpace = s := by
    cases s with
    | nil => rfl
    | cons a as => exact dropWhile_cons_false _ _ _ (hh a rfl)
  rw [h2]
  have h3 : s.reverse.dropWhile isSpace = s.reverse := by
    cases hs : s.reverse with
    | nil => rfl
    | cons a as =>
      refine dropWhile_cons_false _ _ _ (ht a ?_)
      rw [← List.head?_reverse, hs]
      rfl
  rw [h3, List.reverse_reverse]

/-- C5: for every reference date R and natural N, the phrase in-N-days
(with N written in decimal) resolves to R plus N days; the rule applies
whenever the regex search succeeds on the canonical text, regardless of
any weekday name in the phrase, so it takes precedence over weekday
matching, as the concrete mixed phrase shows. -/
theorem in_n_days_resolution :
    (∀ R N, resolve_deadline_text (some (str "in " ++ decimalRepr N ++ str " days")) R
        = some (isoformat (R + N))) ∧
    (∀ p R n, p ≠ [] →
      canon p ≠ str "today" → canon p ≠ str "tomorrow" → canon p ≠ str "day after tomorrow" →
      searchInDays (canon p) = some n →
      resolve_deadline_text (some p) R = some (isoformat (R + n))) ∧
    (∀ R, resolve_deadline_text (some (str "in 3 days friday")) R
        = some (isoformat (R + 3))) := by
  refine ⟨?_, ?_, fun R => rfl⟩
  · intro R N
    have e1 : str "in " = [105, 110, 32] := by decide
    have e2 : str " days" = [32, 100, 97, 121, 115] := by decide
    have e3 : str "in" = [105, 110] := by decide
    have e4 : str "days" = [100, 97, 121, 115] := by decide
    have hph : str "in " ++ decimalRepr N ++ str " days"
        = str "in" ++ ([32] ++ (decimalRepr N ++ ([32] ++ (str "days" ++ [])))) := by
      rw [e1, e2, e3, e4]
      simp
    have hp : str "in " ++ decimalRepr N ++ str " days" ≠ [] := by
      rw [e1]
      simp
    have hh105 : (str "in " ++ decimalRepr N ++ str " days").head? = some 105 := by
      rw [hph, e3]
      rfl
    have hcanon : canon (str "in " ++ decimalRepr N ++ str " days")
        = str "in " ++ decimalRepr N ++ str " days" := by
      refine canon_fixed _ ?_ ?_ ?_
      · intro c hc
        rcases List.mem_append.mp hc with hc1 | hc2
        · rcases List.mem_append.mp hc1 with hc3 | hc4
          · rw [e1] at hc3
            fin_cases hc3
            all_goals decide
          · exact pyLowerChar_digit c (decimalRepr_digits N c hc4)
        · rw [e2] at hc2
          fin_cases hc2
          all_goals decide
      · intro c h
        rw [hh105, Option.some.injEq] at h
        rw [← h]
        rfl
      · intro c h
        have hsplit : str "in " ++ decimalRepr N ++ str " days"
            = (str "in " ++ decimalRepr N ++ [32, 100, 97, 121]) ++ [115] := by
          rw [e2]
          simp
        rw [hsplit, List.getLast?_concat, Option.some.injEq] at h
        rw [← h]
        rfl
    have ht1 : str "in " ++ decimalRepr N ++ str " days" ≠ str "today" := by
      intro hcontra
      rw [hcontra] at hh105
      exact absurd hh105 (by decide)
    have ht2 : str "in " ++ decimalRepr N ++ str " days" ≠ str "tomorrow" := by
      intro hcontra
      rw [hcontra] at hh105
      exact absurd hh105 (by decide)
    have ht3 : str "in " ++ decimalRepr N ++ str " days" ≠ str "day after tomorrow" := by
      intro hcontra
      rw [hcontra] at hh105
      exact absurd hh105 (by decide)
    have hmatch := matchInDaysAt_complete [32] (decimalRepr N) [32] []
      (by simp) (by intro c hc; rw [List.mem_singleton] at hc; subst hc; decide)
      (decimalRepr_ne_nil N) (decimalRepr_digits N)
      (by simp) (by intro c hc; rw [List.mem_singleton] at hc; subst hc; decide)
    rw [digitsToNat_decimalRepr] at hmatch
    have hcons : str "in" ++ ([32] ++ (decimalRepr N ++ ([32] ++ (str "days" ++ []))))
        = 105 :: 110 :: ([32] ++ (decimalRepr N ++ ([32] ++ (str "days" ++ [])))) := by
      rw [e3]
      rfl
    rw [hcons] at hmatch
    have hsearch : searchInDays (str "in " ++ decimalRepr N ++ str " days") = some N := by
      rw [hph, hcons]
      unfold searchInDays
      rw [hmatch]
    rw [resolve_some_eq _ _ hp, hcanon]
    exact resolveText_inDays _ R N ht1 ht2 ht3 hsearch
  · intro p R n hp h1 h2 h3 h4
    rw [resolve_some_eq _ _ hp]
    exact resolveText_inDays _ R n h1 h2 h3 h4

theorem in_n_days_resolution_witness :
    resolve_deadline_text (some (str "due in 10 days")) (toOrdinal 2024 1 3)
      = some (isoformat (toOrdinal 2024 1 3 + 10)) :=
  in_n_days_resolution.2.1 (str "due in 10 days") (toOrdinal 2024 1 3) 10
    (by decide) (by decide) (by decide) (by decide) (by decide)

/-- C10: the in-N-days rule is an unanchored substring search: whenever
the canonical phrase contains the letters in, then whitespace, digits,
whitespace and days anywhere inside it, and matches no earlier exact
case, the phrase resolves to R plus the digit group of the leftmost such
occurrence; concretely, within 5 days resolves to R plus 5 days. -/
theorem in_days_substring_search :
    (∀ R, resolve_deadline_text (some (str "within 5 days")) R
        = some (isoformat (R + 5))) ∧
    (∀ p R, p ≠ [] →
      canon p ≠ str "today" → canon p ≠ str "tomorrow" → canon p ≠ str "day after tomorrow" →
      (∃ pre ws1 ds ws2 suf,
        canon p = pre ++ (str "in" ++ (ws1 ++ (ds ++ (ws2 ++ (str "days" ++ suf))))) ∧
        ws1 ≠ [] ∧ (∀ c ∈ ws1, isSpace c = true) ∧
        ds ≠ [] ∧ (∀ c ∈ ds, isDigit c = true) ∧
        ws2 ≠ [] ∧ (∀ c ∈ ws2, isSpace c = true)) →
      ∃ pre ws1 ds ws2 suf,
        canon p = pre ++ (str "in" ++ (ws1 ++ (ds ++ (ws2 ++ (str "days" ++ suf))))) ∧
        ws1 ≠ [] ∧ (∀ c ∈ ws1, isSpace c = true) ∧
        ds ≠ [] ∧ (∀ c ∈ ds, isDigit c = true) ∧
        ws2 ≠ [] ∧ (∀ c ∈ ws2, isSpace c = true) ∧
        (∀ pre2 ws1a dsa ws2a sufa,
          canon p = pre2 ++ (str "in" ++ (ws1a ++ (dsa ++ (ws2a ++ (str "days" ++ sufa))))) →
          ws1a ≠ [] → (∀ c ∈ ws1a, isSpace c = true) →
          dsa ≠ [] → (∀ c ∈ dsa, isDigit c = true) →
          ws2a ≠ [] → (∀ c ∈ ws2a, isSpace c = true) →
          pre.length ≤ pre2.length) ∧
        resolve_deadline_text (some p) R = some (isoformat (R + digitsToNat ds))) := by
  refine ⟨fun R => rfl, ?_⟩
  intro p R hp h1 h2 h3 hdec
  obtain ⟨pre0, ws10, ds0, ws20, suf0, heq0, hw10, hw10s, hd0, hd0d, hw20, hw20s⟩ := hdec
  have hm0 : matchInDaysAt ((canon p).drop pre0.length) = some (digitsToNat ds0) := by
    rw [heq0, List.drop_left]
    exact matchInDaysAt_complete ws10 ds0 ws20 suf0 hw10 hw10s hd0 hd0d hw20 hw20s
  obtain ⟨n, hn⟩ :=
    Option.ne_none_iff_exists'.mp (searchInDays_complete (canon p) pre0.length _ hm0)
  obtain ⟨i, hilen, hmi, hmin⟩ := searchInDays_sound (canon p) n hn
  obtain ⟨ws1, ds, ws2, suf, hdrop, hw1, hw1s, hd, hdd, hw2, hw2s, hnval⟩ :=
    matchInDaysAt_sound _ n hmi
  refine ⟨(canon p).take i, ws1, ds, ws2, suf, ?_, hw1, hw1s, hd, hdd, hw2, hw2s, ?_, ?_⟩
  · rw [← hdrop, List.take_append_drop]
  · intro pre2 ws1a dsa ws2a sufa heqa hw1a hw1as hda hdad hw2a hw2as
    have hlen : ((canon p).take i).length = i := List.length_take_of_le (by omega)
    rw [hlen]
    by_contra hlt
    push_neg at hlt
    have hma : matchInDaysAt ((canon p).drop pre2.length) = some (digitsToNat dsa) := by
      rw [heqa, List.drop_left]
      exact matchInDaysAt_complete ws1a dsa ws2a sufa hw1a hw1as hda hdad hw2a hw2as
    rw [hmin pre2.length hlt] at hma
    exact Option.noConfusion hma
  · rw [resolve_some_eq _ _ hp, ← hnval]
    exact resolveText_inDays _ R n h1 h2 h3 hn

theorem in_days_substring_search_witness :
    ∃ pre ws1 ds ws2 suf,
      canon (str "within 5 days")
        = pre ++ (str "in" ++ (ws1 ++ (ds ++ (ws2 ++ (str "days" ++ suf))))) ∧
      ws1 ≠ [] ∧ (∀ c ∈ ws1, isSpace c = true) ∧
      ds ≠ [] ∧ (∀ c ∈ ds, isDigit c = true) ∧
      ws2 ≠ [] ∧ (∀ c ∈ ws2, isSpace c = true) ∧
      (∀ pre2 ws1a dsa ws2a sufa,
        canon (str "within 5 days")
          = pre2 ++ (str "in" ++ (ws1a ++ (dsa ++ (ws2a ++ (str "days" ++ sufa))))) →
        ws1a ≠ [] → (∀ c ∈ ws1a, isSpace c = true) →
        dsa ≠ [] → (∀ c ∈ dsa, isDigit c = true) →
        ws2a ≠ [] → (∀ c ∈ ws2a, isSpace c = true) →
        pre.length ≤ pre2.length) ∧
      resolve_deadline_text (some (str "within 5 days")) (toOrdinal 2024 1 3)
        = some (isoformat (toOrdinal 2024 1 3 + digitsToNat ds)) :=
  in_days_substring_search.2 (str "within 5 days") (toOrdinal 2024 1 3)
    (by decide) (by decide) (by decide) (by decide)
    ⟨str "with", [32], [53], [32], [], by decide, by decide, by decide,
      by decide, by decide, by decide, by decide⟩

/-! ### Dictionary lemmas, towards claim C9 -/

theorem lookup_eq_none_of_not_mem_keys (k : PyStr) (d : Dict)
    (h : k ∉ d.map Prod.fst) : List.lookup k d = none := by
  induction d with
  | nil => rfl
  | cons kv d ih =>
    obtain ⟨k2, v⟩ := kv
    simp only [List.map_cons, List.mem_cons] at h
    push_neg at h
    have hb : (k == k2) = false := beq_eq_false_iff_ne.mpr h.1
    simp [List.lookup, hb, ih h.2]

theorem lookup_dictPop_ne (k k1 : PyStr) (d : Dict) (h : k1 ≠ k) :
    List.lookup k1 (dictPop k d) = List.lookup k1 d := by
  induction d with
  | nil => rfl
  | cons kv d ih =>
    obtain ⟨k2, v⟩ := kv
    unfold dictPop
    split_ifs with h2
    · subst h2
      have hb : (k1 == k2) = false := beq_eq_false_iff_ne.mpr h
      simp [List.lookup, hb]
    · by_cases h3 : k1 = k2
      · subst h3
        simp [List.lookup]
      · have hb : (k1 == k2) = false := beq_eq_false_iff_ne.mpr h3
        simp [List.lookup, hb, ih]

theorem lookup_dictPop_self (k : PyStr) (d : Dict) (hnd : (d.map Prod.fst).Nodup) :
    List.lookup k (dictPop k d) = none := by
  induction d with
  | nil => rfl
  | cons kv d ih =>
    obtain ⟨k2, v⟩ := kv
    simp only [List.map_cons, List.nodup_cons] at hnd
    unfold dictPop
    split_ifs with h2
    · subst h2
      exact lookup_eq_none_of_not_mem_keys k2 d hnd.1
    · have hb : (k == k2) = false := beq_eq_false_iff_ne.mpr (fun e => h2 e.symm)
      simp [List.lookup, hb, ih hnd.2]

theorem lookup_dictSet_self (k : PyStr) (v : Value) (d : Dict) :
    List.lookup k (dictSet k v d) = some v := by
  induction d with
  | nil => simp [dictSet, List.lookup]
  | cons kv d ih =>
    obtain ⟨k2, v2⟩ := kv
    unfold dictSet
    split_ifs with h2
    · simp [List.lookup]
    · have hb : (k == k2) = false := beq_eq_false_iff_ne.mpr (fun e => h2 e.symm)
      simp [List.lookup, hb, ih]

theorem lookup_dictSet_ne (k k1 : PyStr) (v : Value) (d : Dict) (h : k1 ≠ k) :
    List.lookup k1 (dictSet k v d) = List.lookup k1 d := by
  induction d with
  | nil =>
    have hb : (k1 == k) = false := beq_eq_false_iff_ne.mpr h
    simp [dictSet, List.lookup, hb]
  | cons kv d ih =>
    obtain ⟨k2, v2⟩ := kv
    unfold dictSet
    split_ifs with h2
    · subst h2
      have hb : (k1 == k2) = false := beq_eq_false_iff_ne.mpr h
      simp [List.lookup, hb]
    · by_cases h3 : k1 = k2
      · subst h3
        simp [List.lookup]
      · have hb : (k1 == k2) = false := beq_eq_false_iff_ne.mpr h3
        simp [List.lookup, hb, ih]

theorem dictPop_sublist (k : PyStr) (d : Dict) : List.Sublist (dictPop k d) d := by
  induction d with
  | nil => simp [dictPop]
  | cons kv d ih =>
    obtain ⟨k2, v⟩ := kv
    unfold dictPop
    split_ifs
    · exact List.Sublist.cons _ (List.Sublist.refl d)
    · exact List.Sublist.cons₂ _ ih

theorem keys_nodup_dictPop (k : PyStr) (d : Dict) (h : (d.map Prod.fst).Nodup) :
    ((dictPop k d).map Prod.fst).Nodup :=
  List.Nodup.sublist ((dictPop_sublist k d).map Prod.fst) h

theorem mem_keys_dictSet (k k1 : PyStr) (v : Value) (d : Dict)
    (h : k1 ∈ (dictSet k v d).map Prod.fst) : k1 = k ∨ k1 ∈ d.map Prod.fst := by
  induction d with
  | nil =>
    simp [dictSet] at h
    exact Or.inl h
  | cons kv d ih =>
    obtain ⟨k2, v2⟩ := kv
    unfold dictSet at h
    split_ifs at h with h2
    · simp only [List.map_cons, List.mem_cons] at h
      rcases h with h | h
      · exact Or.inl h
      · right
        simp only [List.map_cons, List.mem_cons]
        exact Or.inr h
    · simp only [List.map_cons, List.mem_cons] at h
      rcases h with h | h
      · right
        simp only [List.map_cons, List.mem_cons]
        exact Or.inl h
      · rcases ih h with h | h
        · exact Or.inl h
        · right
          simp only [List.map_cons, List.mem_cons]
          exact Or.inr h

theorem keys_nodup_dictSet (k : PyStr) (v : Value) (d : Dict)
    (h : (d.map Prod.fst).Nodup) : ((dictSet k v d).map Prod.fst).Nodup := by
  induction d with
  | nil => simp [dictSet]
  | cons kv d ih =>
    obtain ⟨k2, v2⟩ := kv
    simp only [List.map_cons, List.nodup_cons] at h
    unfold dictSet
    split_ifs with h2
    · subst h2
      simp only [List.map_cons, List.nodup_cons]
      exact ⟨h.1, h.2⟩
    · simp only [List.map_cons, List.nodup_cons]
      refine ⟨?_, ih h.2⟩
      intro hmem
      rcases mem_keys_dictSet k k2 v d hmem with he | hm
      · exact h2 he
      · exact h.1 hm

/-- C9: the post-processor maps each record of the collection in place
and in order, with no record added or removed; on each record it removes
owner, email and deadline_text (the removals stated under the distinct-
keys property every Python dict has), stores the resolver result for the
deadline_text field under deadline, and leaves every other field
unchanged. -/
theorem post_processor_frame (items : List Dict) (R : Nat) :
    (actions_items_parseq items R).length = items.length ∧
    (∀ (i : Nat) (item : Dict), items[i]? = some item →
      ∃ out, (actions_items_parseq items R)[i]? = some out ∧
        List.lookup (str "deadline") out
          = some (valOf (resolve_deadline_text
              (phraseOf (List.lookup (str "deadline_text") item)) R)) ∧
        ((item.map Prod.fst).Nodup →
          List.lookup (str "owner") out = none ∧
          List.lookup (str "email") out = none ∧
          List.lookup (str "deadline_text") out = none) ∧
        (∀ k, k ≠ str "owner" → k ≠ str "email" → k ≠ str "deadline_text" →
          k ≠ str "deadline" → List.lookup k out = List.lookup k item)) := by
  constructor
  · simp [actions_items_parseq]
  · intro i item hit
    refine ⟨process_item R item, ?_, ?_, ?_, ?_⟩
    · rw [actions_items_parseq, List.getElem?_map, hit, Option.map_some']
    · unfold process_item
      rw [lookup_dictPop_ne (str "deadline_text") (str "deadline") _ (by decide),
        lookup_dictSet_self,
        lookup_dictPop_ne (str "email") (str "deadline_text") _ (by decide),
        lookup_dictPop_ne (str "owner") (str "deadline_text") _ (by decide)]
    · intro hnd
      have hnd1 := keys_nodup_dictPop (str "owner") item hnd
      have hnd2 := keys_nodup_dictPop (str "email") _ hnd1
      have hnd3 := keys_nodup_dictSet (str "deadline")
        (valOf (resolve_deadline_text (phraseOf (List.lookup (str "deadline_text")
          (dictPop (str "email") (dictPop (str "owner") item)))) R)) _ hnd2
      unfold process_item
      refine ⟨?_, ?_, ?_⟩
      · rw [lookup_dictPop_ne (str "deadline_text") (str "owner") _ (by decide),
          lookup_dictSet_ne (str "deadline") (str "owner") _ _ (by decide),
          lookup_dictPop_ne (str "email") (str "owner") _ (by decide)]
        exact lookup_dictPop_self _ _ hnd
      · rw [lookup_dictPop_ne (str "deadline_text") (str "email") _ (by decide),
          lookup_dictSet_ne (str "deadline") (str "email") _ _ (by decide)]
        exact lookup_dictPop_self _ _ hnd1
      · exact lookup_dictPop_self _ _ hnd3
    · intro k hk1 hk2 hk3 hk4
      unfold process_item
      rw [lookup_dictPop_ne (str "deadline_text") k _ hk3,
        lookup_dictSet_ne (str "deadline") k _ _ hk4,
        lookup_dictPop_ne (str "email") k _ hk2,
        lookup_dictPop_ne (str "owner") k _ hk1]

theorem post_processor_frame_witness :
    ∃ out, (actions_items_parseq
        [[(str "owner", Value.vstr (str "alice")),
          (str "task", Value.vstr (str "ship")),
          (str "deadline_text", Value.vstr (str "tomorrow"))]]
        (toOrdinal 2024 1 3))[0]? = some out ∧
      List.lookup (str "deadline") out
        = some (valOf (resolve_deadline_text
            (phraseOf (List.lookup (str "deadline_text")
              [(str "owner", Value.vstr (str "alice")),
               (str "task", Value.vstr (str "ship")),
               (str "deadline_text", Value.vstr (str "tomorrow"))]))
            (toOrdinal 2024 1 3))) ∧
      (((([(str "owner", Value.vstr (str "alice")),
          (str "task", Value.vstr (str "ship")),
          (str "deadline_text", Value.vstr (str "tomorrow"))] : Dict).map Prod.fst).Nodup →
        List.lookup (str "owner") out = none ∧
        List.lookup (str "email") out = none ∧
        List.lookup (str "deadline_text") out = none)) ∧
      (∀ k, k ≠ str "owner" → k ≠ str "email" → k ≠ str "deadline_text" →
        k ≠ str "deadline" → List.lookup k out = List.lookup k
          [(str "owner", Value.vstr (str "alice")),
           (str "task", Value.vstr (str "ship")),
           (str "deadline_text", Value.vstr (str "tomorrow"))]) :=
  (post_processor_frame
    [[(str "owner", Value.vstr (str "alice")),
      (str "task", Value.vstr (str "ship")),
      (str "deadline_text", Value.vstr (str "tomorrow"))]]
    (toOrdinal 2024 1 3)).2 0
    [(str "owner", Value.vstr (str "alice")),
     (str "task", Value.vstr (str "ship")),
     (str "deadline_text", Value.vstr (str "tomorrow"))] rfl

end Utils
